import Mathlib

/-!
Verification development for `manageOSB.py`, a WLST utility that manages
Oracle Service Bus projects: it undeploys projects together with the JMS
queues and work managers they use, and it bulk-toggles proxy-service
enablement and monitoring.

The script is shallowly embedded here.  Interactive prompts (`raw_input`)
are modelled as oracle parameters carrying the string the user would type;
the remote registry (MBeans, JMS modules, work managers) is modelled as
explicit data passed to each function; session and edit-transaction
lifecycles are recorded as explicit states and action traces.
-/

namespace ManageOSB

/-- Whitespace as recognised by Python `str.strip()` (ASCII subset). -/
def isPySpace (c : Char) : Bool :=
  c = ' ' || c = '\t' || c = '\n' || c = '\r'

/-- Model of Python `s.strip()`: drop whitespace from both ends. -/
def pyStrip (s : String) : String :=
  ⟨((s.data.dropWhile isPySpace).reverse.dropWhile isPySpace).reverse⟩

/-- Model of Python `s.upper()` (ASCII). -/
def pyUpper (s : String) : String :=
  ⟨s.data.map Char.toUpper⟩

/-- The confirmation test used throughout the script for prompt answers:
`choice.upper() == "Y" or choice.strip() == ""` (e.g. line 133). -/
def yes (ans : String) : Bool :=
  pyUpper ans == "Y" || pyStrip ans == ""

/-- Model of Python `s.split(sep)` for a one-character separator, on the
underlying character list.  `split` always returns a nonempty list and
keeps empty fields, e.g. `"" → [""]`, `"/x" → ["", "x"]`. -/
def splitOnC (sep : Char) : List Char → List (List Char)
  | [] => [[]]
  | c :: cs =>
    match splitOnC sep cs with
    | h :: t => if c = sep then [] :: h :: t else (c :: h) :: t
    | [] => [[c]]

/-- Python `lst[-1]` applied to a `split` result (never empty). -/
def lastSeg (l : List (List Char)) : List Char :=
  l.getLastD []

/-- Model of the Python substring test `pat in s` on character lists. -/
def listHasSub (pat : List Char) : List Char → Bool
  | [] => pat.isEmpty
  | c :: cs => pat.isPrefixOf (c :: cs) || listHasSub pat cs

/-- Model of the Python substring test `pat in s`. -/
def strHasSub (pat s : String) : Bool :=
  listHasSub pat.data s.data

/-- Fuelled worker for `pyReplace` (fuel = length of the subject makes the
recursion structural, so terms evaluate by `rfl`/`decide`). -/
def replaceFuel (pat rep : List Char) : Nat → List Char → List Char
  | _, [] => []
  | 0, s => s
  | fuel + 1, c :: cs =>
    if pat ≠ [] && pat.isPrefixOf (c :: cs) then
      rep ++ replaceFuel pat rep fuel (List.drop (pat.length - 1) cs)
    else
      c :: replaceFuel pat rep fuel cs

/-- Model of Python `s.replace(pat, rep)`: replace every non-overlapping
occurrence, left to right. -/
def pyReplace (s pat rep : String) : String :=
  ⟨replaceFuel pat.data rep.data s.data.length s.data⟩

/-- The queue name extracted from a JMS URI, lines 169-171 of the script:
`jms_uri.split("/")[-1].split(".")[-1]`. -/
def queueNameOfUri (uri : String) : String :=
  ⟨lastSeg (splitOnC '.' (lastSeg (splitOnC '/' uri.data)))⟩

/-! ### The de-duplication workaround

Lines 175-178 (and 204-207) keep only the first occurrence of each name:
`for n in l: if n not in unique: unique.append(n)`.  We embed it as a
`foldl` and prove that it yields each name exactly once in first-seen
order. -/

/-- Lines 176-178 / 205-207: order-preserving de-duplication by repeated
membership test and append ("workaround as set() is not available"). -/
def uniqAppend (l : List String) : List String :=
  l.foldl (fun acc x => if x ∈ acc then acc else acc ++ [x]) []

/-- The names that the loop of `uniqAppend` appends after a given accumulator. -/
def newNames (acc : List String) : List String → List String
  | [] => []
  | x :: xs => if x ∈ acc then newNames acc xs else x :: newNames (acc ++ [x]) xs

/-! ### `get_prj_details` (lines 240-293)

The function queries the registry for a project, walks its references and
builds a row `[fullName, enabled, serviceUri, workManager]` per proxy or
business service.  For business services the `SERVICE_URI_TABLE` attribute
value is parsed with `xml.dom.minidom.parseString`, the first `tran:URI`
element is serialised back with `.toxml()` and the literal tags
`<tran:URI>`/`</tran:URI>` are stripped with `str.replace`.

The minidom boundary is modelled by `RawMarkup`: a well-formed attribute
value is the list of text contents of its `tran:URI` elements in document
order (elements carry no attributes); a malformed value makes
`parseString` raise.  Note minidom serialises an element with empty
content in self-closed form `<tran:URI/>`.

In Python the function returns a value that is either a string sentinel
(`"Not found"`, `"Empty"`) or a list of rows; `PyVal` keeps that union
because `undeploy_osb_prj` branches on string comparisons against it.
Any exception inside the function body is caught by its own handler
(lines 291-293), which returns the rows accumulated so far. -/

/-- One row of the project-details report. -/
structure DetailRow where
  path : String
  enabled : Bool
  uri : String
  wm : String
deriving DecidableEq, Repr

/-- The union type returned by `get_prj_details`. -/
inductive PyVal
  | str (s : String)
  | rows (rs : List DetailRow)
deriving DecidableEq, Repr

/-- The raw `SERVICE_URI_TABLE` attribute value at the minidom boundary. -/
inductive RawMarkup
  | wellFormed (uriContents : List String)
  | malformed
deriving DecidableEq, Repr

/-- An endpoint owned by a project, as enumerated by `getRefs`; references
of other type ids are skipped by the loop and are not modelled. -/
inductive Endpoint
  | proxy (fullName : String) (enabled : Bool) (uri : String) (wm : String)
  | business (fullName : String) (enabled : Bool) (uriTable : RawMarkup) (wm : String)
deriving DecidableEq, Repr

/-- A project in the registry. -/
structure Project where
  name : String
  endpoints : List Endpoint
deriving DecidableEq, Repr

/-- The read-only registry view used by `get_prj_details`. -/
abbrev Registry := List Project

/-- minidom `.toxml()` of a `tran:URI` element with the given text content
(empty content serialises in self-closed form). -/
def toxmlUriElem (content : String) : String :=
  if content = "" then "<tran:URI/>"
  else "<tran:URI>" ++ content ++ "</tran:URI>"

/-- Line 281: `xml_uri.replace("<tran:URI>", "").replace("</tran:URI>", "")`. -/
def stripUriTags (s : String) : String :=
  pyReplace (pyReplace s "<tran:URI>" "") "</tran:URI>" ""

/-- Lines 279-281 for one business service: parse the table, take element
`[0]` of `getElementsByTagName("tran:URI")`, serialise, strip the tags.
`none` models an exception (malformed markup, or no `tran:URI` element so
the `[0]` raises `IndexError`). -/
def extractBizUri : RawMarkup → Option String
  | .malformed => none
  | .wellFormed es =>
    match es.head? with
    | none => none
    | some c => some (stripUriTags (toxmlUriElem c))

/-- The row built for one endpoint (lines 270-284); `none` models an
exception while extracting the business URI. -/
def rowOf : Endpoint → Option DetailRow
  | .proxy n e u w => some ⟨n, e, u, w⟩
  | .business n e tbl w => (extractBizUri tbl).map fun u => ⟨n, e, u, w⟩

/-- The loop of lines 268-284: rows are accumulated endpoint by endpoint;
the first exception aborts the loop (the `Bool` flag records that an
exception occurred, in which case later endpoints contribute nothing). -/
def buildRows : List Endpoint → List DetailRow × Bool
  | [] => ([], false)
  | ep :: rest =>
    match rowOf ep with
    | none => ([], true)
    | some r =>
      let (rs, err) := buildRows rest
      (r :: rs, err)

/-- `alsb_mbean.exists(ref)` for a project ref, line 264. -/
def findProject (reg : Registry) (p : String) : Option Project :=
  reg.find? fun pr => pr.name == p

/-- `get_prj_details(prj_name)`, lines 240-293.  Returns `"Not found"` if
the project ref does not exist, `"Empty"` if the row list came out empty
with no exception, the row list otherwise.  When an exception occurred the
handler of lines 291-293 returns the rows accumulated so far (possibly the
empty list). -/
def get_prj_details (reg : Registry) (prj_name : String) : PyVal :=
  match findProject reg prj_name with
  | none => .str "Not found"
  | some pr =>
    let (rs, err) := buildRows pr.endpoints
    if err then .rows rs
    else if rs.isEmpty then .str "Empty"
    else .rows rs

/-! ### `undeploy_osb_prj` (lines 53-237)

Per project name the orchestrator: fetches the details report; branches on
the string sentinels; creates a session; checks the ref inside the
session; asks for confirmation; deletes and activates; and, only after a
successful activation and only when the details value is a nonempty list,
derives unique queue and work-manager names from the captured rows and
invokes `delete_queue` / `delete_work_manager` per unique name.

The collaborator boundary is an `UndeployEnv` of oracles:
`details p` is the outcome of calling `get_prj_details(p)` — `Except.error`
models an exception escaping the call, which the handler of lines 97-100
answers by logging and returning from the whole function; `deleteOk p`
models whether the delete+activate block (lines 134-137) succeeds or
raises (the handler of lines 150-158 then appends a Failed row and
discards the session); `answerDelete`/`answerWm` are the strings typed at
the confirmation prompts (`"Y"` in standalone mode); `queueRows`/`wmRows`
are the report rows returned by the two reapers.

The final state of every session created is recorded: `activated`,
`discarded`, or `leftOpen` when the function moves on without either
(source: the declined branch at lines 140-143 and the not-found-in-session
branch at lines 144-148 `continue` without discarding). -/

/-- A 3-column report row `(objectType, objectName, status)`. -/
abbrev Row := String × String × String

/-- Terminal (or not) state of one configuration session. -/
inductive SessFinal
  | activated
  | discarded
  | leftOpen
deriving DecidableEq, Repr

/-- Oracle bundle for the collaborators of `undeploy_osb_prj`. -/
structure UndeployEnv where
  details : String → Except Unit PyVal
  existsInSession : String → Bool
  deleteOk : String → Bool
  answerDelete : String → String
  answerWm : String → String
  queueRows : String → List Row
  wmRows : String → List Row

/-- Observable outcome of a run of `undeploy_osb_prj`. -/
structure UResult where
  report : List Row
  sessions : List (String × SessFinal)
  queueCalls : List String
  wmCalls : List String
  attempted : List String
  aborted : Bool
deriving DecidableEq, Repr

/-- Work-manager names the platform treats as defaults, line 200. -/
def sentinelWms : List String :=
  ["SBDefaultResponseWorkManager", "None", "default"]

/-- Lines 164-172: queue names derived from rows whose URI contains
`"jms://"`, before de-duplication. -/
def jmsQueueNames (rs : List DetailRow) : List String :=
  (rs.filter fun r => r.uri != "" && strHasSub "jms://" r.uri).map
    fun r => queueNameOfUri r.uri

/-- Lines 197-201: work-manager names excluding empty and sentinel values,
before de-duplication. -/
def wmCandidates (rs : List DetailRow) : List String :=
  (rs.filter fun r => r.wm != "" && !(sentinelWms.contains r.wm)).map
    fun r => r.wm

/-- Lines 160-234: the cascade block run after a successful project
deletion when the details value is a nonempty list.  Returns the appended
report rows, the queue names passed to `delete_queue` and the work-manager
names passed to `delete_work_manager` (a declined work-manager prompt
appends a Skipped row instead of invoking the reaper). -/
def cascade (env : UndeployEnv) (rs : List DetailRow) :
    List Row × List String × List String :=
  let qs := uniqAppend (jmsQueueNames rs)
  let qrows := qs.foldl (fun acc q => acc ++ env.queueRows q) []
  let ws := uniqAppend (wmCandidates rs)
  let (wrows, wcalls) :=
    ws.foldl
      (fun (acc : List Row × List String) w =>
        if yes (env.answerWm w) then (acc.1 ++ env.wmRows w, acc.2 ++ [w])
        else (acc.1 ++ [("Work manager", w, "Skipped")], acc.2))
      ([], [])
  (qrows ++ wrows, qs, wcalls)

/-- The body of the `for prj_name in prj_names` loop (lines 86-234) for a
single name, producing the contribution of that iteration to the run. -/
def processOne (env : UndeployEnv) (name : String) : UResult :=
  let p := pyStrip name
  match env.details p with
  | .error _ => ⟨[], [], [], [], [p], true⟩
  | .ok v =>
    if v = .str "Not found" then
      ⟨[("OSB project", p, "Not found")], [], [], [], [p], false⟩
    else
      let pre : List Row :=
        if v = .str "Project is empty" then
          [("OSB project", p, "Project is empty")]
        else []
      if env.existsInSession p then
        if yes (env.answerDelete p) then
          if env.deleteOk p then
            match v with
            | .rows (r :: rs) =>
              let (crows, qcalls, wcalls) := cascade env (r :: rs)
              ⟨pre ++ [("OSB project", p, "Deleted")] ++ crows,
                [(p, .activated)], qcalls, wcalls, [p], false⟩
            | _ =>
              ⟨pre ++ [("OSB project", p, "Deleted")], [(p, .activated)],
                [], [], [p], false⟩
          else
            ⟨pre ++ [("OSB project", p, "Failed")], [(p, .discarded)],
              [], [], [p], false⟩
        else
          ⟨pre ++ [("OSB project", p, "Skipped by user")], [(p, .leftOpen)],
            [], [], [p], false⟩
      else
        ⟨pre ++ [("OSB project", p, "Not found")], [(p, .leftOpen)],
          [], [], [p], false⟩

/-- Concatenation of two run outcomes. -/
def mergeU (a b : UResult) : UResult :=
  ⟨a.report ++ b.report, a.sessions ++ b.sessions,
    a.queueCalls ++ b.queueCalls, a.wmCalls ++ b.wmCalls,
    a.attempted ++ b.attempted, b.aborted⟩

/-- The project loop: empty names are skipped (line 87); an exception from
`get_prj_details` returns from the whole function (lines 97-100); any
other outcome continues with the next name. -/
def undeployGo (env : UndeployEnv) (st : UResult) : List String → UResult
  | [] => st
  | n :: rest =>
    if n = "" then undeployGo env st rest
    else
      let r := processOne env n
      if r.aborted then mergeU st r else undeployGo env (mergeU st r) rest

/-- `undeploy_osb_prj`, lines 53-237, for a given batch of project names. -/
def undeploy_osb_prj (env : UndeployEnv) (prj_names : List String) : UResult :=
  undeployGo env ⟨[], [], [], [], [], false⟩ prj_names

/-! ### `delete_work_manager` (lines 698-758)

Opens an edit transaction (`edit(); startEdit()`), navigates to the
work-manager container and looks the name up by `getMBean`.  If the bean
exists it removes the max-thread constraint (if any), the min-thread
constraint (if any), then the work manager, each preceded by a reference
removal, and then saves and activates.  If the bean does not exist it only
appends a Not found row — the edit transaction is neither activated nor
cancelled on that path.  The exception handler (lines 751-756) appends a
Failed row and cancels; it is unreachable in this pure model and the pure
branches never take it. -/

/-- Final state of a work-manager/queue edit transaction. -/
inductive EditFinal
  | activated
  | cancelled
  | leftOpen
deriving DecidableEq, Repr

/-- A work manager with its optional thread constraints. -/
structure WmBean where
  name : String
  maxtc : Option String
  mintc : Option String
deriving DecidableEq, Repr

/-- `delete_work_manager(wm_name)` over the work-manager list of the registry.
Returns the report rows and the final state of the edit transaction. -/
def delete_work_manager (wms : List WmBean) (wm_name : String) :
    List Row × EditFinal :=
  match wms.find? (fun b => b.name == wm_name) with
  | some b =>
    let maxRows : List Row :=
      match b.maxtc with
      | some m => [("MaxThreadsConstraint", m, "Deleted")]
      | none => []
    let minRows : List Row :=
      match b.mintc with
      | some m => [("MinThreadsConstraint", m, "Deleted")]
      | none => []
    (maxRows ++ minRows ++ [("Work manager", wm_name, "Deleted")], .activated)
  | none => ([("Work manager", wm_name, "Not found")], .leftOpen)

/-! ### `delete_queue` (lines 761-974)

After stripping the name (an empty result returns an empty report before
any edit transaction is opened), the function opens an edit transaction
and iterates the JMS modules in registry order.  In each module it looks
up a uniform distributed queue, else a plain queue, else scans the
foreign servers of the module for a foreign destination.  On a match it asks
for confirmation; if confirmed it resolves the error destination (DMQ)
first, destroys the primary, optionally confirms and destroys the DMQ,
saves, activates and breaks out of the search; if declined it appends a
Skipped row, cancels the edit and — for the distributed/plain branches —
goes on to the next module (there is no `break` on those declined paths).
The stale `is_queue_found` flag then also breaks the module loop from the
foreign-server branch of a later module.

Every registry interaction is recorded in a `QAction` trace so that search
order and transaction behaviour are provable statements. -/

/-- A queue (distributed or plain) and the name of its configured error
destination (DMQ), if any. -/
structure QQueue where
  name : String
  dmq : Option String
deriving DecidableEq, Repr

/-- A foreign server with its registered foreign-destination names. -/
structure ForeignServer where
  name : String
  dests : List String
deriving DecidableEq, Repr

/-- A JMS messaging module. -/
structure JmsModule where
  name : String
  udqs : List QQueue
  queues : List QQueue
  servers : List ForeignServer
deriving DecidableEq, Repr

/-- Registry interactions performed by `delete_queue`, in order. -/
inductive QAction
  | startEdit
  | lookupUdq (module qname : String)
  | lookupQueue (module qname : String)
  | lookupForeign (module server qname : String)
  | resolveDmq (qname : String)
  | destroyUdq (qname : String)
  | destroyQueue (qname : String)
  | destroyForeign (qname : String)
  | saveActivate
  | cancelEdit
deriving DecidableEq, Repr

/-- Is the action one of the three lookups? -/
def QAction.isLookup : QAction → Bool
  | .lookupUdq _ _ => true
  | .lookupQueue _ _ => true
  | .lookupForeign _ _ _ => true
  | _ => false

/-- `lookupUniformDistributedQueue` / `lookupQueue` by exact name. -/
def lookupQ (l : List QQueue) (qn : String) : Option QQueue :=
  l.find? fun q => q.name == qn

/-- The foreign-server loop, lines 916-953.  A confirmed deletion saves,
activates and breaks the inner loop; a declined one appends Skipped,
cancels and continues with the next server.  Returns the updated report,
trace, found flag and prompt counter. -/
def processForeign (ans : Nat → String) (qn mname : String) :
    List ForeignServer → List Row → List QAction → Bool → Nat →
    List Row × List QAction × Bool × Nat
  | [], rep, tr, found, k => (rep, tr, found, k)
  | s :: rest, rep, tr, found, k =>
    let tr := tr ++ [QAction.lookupForeign mname s.name qn]
    if s.dests.contains qn then
      if yes (ans k) then
        (rep ++ [("ForeignDestination", qn, "Deleted")],
          tr ++ [QAction.destroyForeign qn, QAction.saveActivate], true, k + 1)
      else
        processForeign ans qn mname rest
          (rep ++ [("ForeignDestination", qn, "Skipped")])
          (tr ++ [QAction.cancelEdit]) true (k + 1)
    else processForeign ans qn mname rest rep tr found k

/-- The module loop of `delete_queue`, lines 784-958.  `found` is the
`is_queue_found` flag; `k` counts the confirmation prompts asked so far.
Returns the report, the trace and the final flag. -/
def processModules (ans : Nat → String) (qn : String) :
    List JmsModule → List Row → List QAction → Bool → Nat →
    List Row × List QAction × Bool
  | [], rep, tr, found, _ => (rep, tr, found)
  | m :: rest, rep, tr, found, k =>
    let tr := tr ++ [QAction.lookupUdq m.name qn]
    match lookupQ m.udqs qn with
    | some q =>
      if yes (ans k) then
        let tr := tr ++ [QAction.resolveDmq qn, QAction.destroyUdq qn]
        match q.dmq with
        | some d =>
          if yes (ans (k + 1)) then
            (rep ++ [("UniformDistributedQueue", qn, "Deleted"), ("DMQ", d, "Deleted")],
              tr ++ [QAction.destroyUdq d, QAction.saveActivate], true)
          else
            (rep ++ [("DMQ", d, "Skipped"), ("UniformDistributedQueue", qn, "Deleted")],
              tr ++ [QAction.saveActivate], true)
        | none =>
          (rep ++ [("UniformDistributedQueue", qn, "Deleted")],
            tr ++ [QAction.saveActivate], true)
      else
        processModules ans qn rest
          (rep ++ [("UniformDistributedQueue", qn, "Skipped")])
          (tr ++ [QAction.cancelEdit]) true (k + 1)
    | none =>
      let tr := tr ++ [QAction.lookupQueue m.name qn]
      match lookupQ m.queues qn with
      | some q =>
        if yes (ans k) then
          let tr := tr ++ [QAction.resolveDmq qn, QAction.destroyQueue qn]
          match q.dmq with
          | some d =>
            if yes (ans (k + 1)) then
              (rep ++ [("Queue", qn, "Deleted"), ("DMQ", d, "Deleted")],
                tr ++ [QAction.destroyQueue d, QAction.saveActivate], true)
            else
              (rep ++ [("DMQ", d, "Skipped"), ("Queue", qn, "Deleted")],
                tr ++ [QAction.saveActivate], true)
          | none =>
            (rep ++ [("Queue", qn, "Deleted")],
              tr ++ [QAction.saveActivate], true)
        else
          -- the declined plain-queue branch reports the literal
          -- "UniformDistributedQueue" string, lines 907-908
          processModules ans qn rest
            (rep ++ [("UniformDistributedQueue", qn, "Skipped")])
            (tr ++ [QAction.cancelEdit]) true (k + 1)
      | none =>
        match processForeign ans qn m.name m.servers rep tr found k with
        | (rep2, tr2, found2, k2) =>
          if found2 then (rep2, tr2, found2)
          else processModules ans qn rest rep2 tr2 found2 k2

/-- `delete_queue(queue_name)`, lines 761-974: strip the name, return an
empty report before any registry interaction if it is empty, otherwise
run the module search; when nothing matched anywhere append a Not found
row and cancel the edit. -/
def delete_queue (reg : List JmsModule) (ans : Nat → String)
    (queue_name : String) : List Row × List QAction :=
  let qn := pyStrip queue_name
  if qn = "" then ([], [])
  else
    match processModules ans qn reg [] [QAction.startEdit] false 0 with
    | (rep, tr, found) =>
      if found then (rep, tr)
      else (rep ++ [("Queue", qn, "Not found")], tr ++ [QAction.cancelEdit])

/-! ### Bulk state toggles (lines 296-417 and 419-538)

`manage_proxy_services` and `proxy_services_monitoring` share one
algorithm and differ only in which state they read and mutate and in the
wording of the standalone activation comments; both are instances of
`toggleCore` below.

Inputs: the list of full paths and the integer `action` typed by the user
(`1` enables, anything else disables; the idempotency test
`action == is_enabled` compares the integer against the boolean, which in
Python makes `True == 1` and `False == 0`).  Per path the name is
stripped, split into path and local name and resolved to a list of refs.
`prx_full_names_cnt` stays `0` until a path resolves and is then set to
the length of the input list; the in-loop activation fires after each
modification when that counter equals `1`, the aggregate activation fires
once after the loop when it exceeds `1` and at least one modification
happened, and the session is discarded when no modification happened.

Standalone activation comments are modelled (interactive runs prompt for a
free-text comment instead).  Mutations, activations and the discard are
recorded in a `TEvent` trace. -/

/-- Which of the two toggle workflows is running. -/
inductive ToggleKind
  | enablement
  | monitoring
deriving DecidableEq, Repr

/-- Collaborator oracles of a toggle run: `resolve` is `getRefs` for the
query built from a stripped full path, `cur` is `isEnabled` (or
`isMonitoringEnabled`) per ref, `uri` is the `SERVICE_URI` read. -/
structure ToggleEnv where
  resolve : String → List String
  cur : String → Bool
  uri : String → String

/-- Session-relevant events of a toggle run, in order. -/
inductive TEvent
  | modify (ref : String)
  | activate (comment : String)
  | discard
deriving DecidableEq, Repr

/-- Running state of a toggle run: report rows, `mod_prx_cnt`,
`prx_full_names_cnt` and the event trace. -/
structure TState where
  report : List Row
  modCnt : Nat
  cnt : Nat
  trace : List TEvent
deriving DecidableEq, Repr

/-- `actionTxt`, lines 319-322. -/
def actionTxt (action : Nat) : String :=
  if action = 1 then "enable" else "disable"

/-- `actionTxt.capitalize()` as used in the report rows. -/
def actionCap (action : Nat) : String :=
  if action = 1 then "Enable" else "Disable"

/-- The local name of a stripped full path: `full.split("/")[-1]`. -/
def localNameOf (full : String) : String :=
  ⟨lastSeg (splitOnC '/' full.data)⟩

/-- The standalone per-item activation comment, lines 388 and 510. -/
def perItemComment (action : Nat) (localName : String) : String :=
  localName ++ " " ++ actionTxt action ++ "d"

/-- The standalone aggregate activation comments, lines 398 and 520 (the
monitoring wording lacks a space after "is" in the source). -/
def aggComment (kind : ToggleKind) (action modCnt : Nat) : String :=
  match kind with
  | .enablement => toString modCnt ++ " proxy services " ++ actionTxt action ++ "d"
  | .monitoring =>
    "Monitoring of " ++ toString modCnt ++ " proxy services is" ++ actionTxt action ++ "d"

/-- `isEnabled` as the integer Python compares `action` against. -/
def curInt (env : ToggleEnv) (r : String) : Nat :=
  if env.cur r then 1 else 0

/-- The body of the `for ref in prx_refs` loop (lines 364-393 / 486-515)
for one ref: an already-in-state ref only appends a starred row; otherwise
the state is mutated, the counter incremented, the session activated
immediately when the input list had exactly one entry, and a row appended. -/
def processRef (env : ToggleEnv) (action : Nat) (localName full : String)
    (st : TState) (r : String) : TState :=
  if action = curInt env r then
    { st with report := st.report ++ [(full, actionCap action ++ "d*", env.uri r)] }
  else
    { st with
      report := st.report ++ [(full, actionCap action ++ "d", env.uri r)]
      modCnt := st.modCnt + 1
      trace := st.trace ++
        (TEvent.modify r ::
          (if st.cnt = 1 then [TEvent.activate (perItemComment action localName)]
           else [])) }

/-- The body of the `for prx_full_name in prx_full_names` loop (lines
345-393 / 467-515) for one path. -/
def processPath (env : ToggleEnv) (action total : Nat)
    (st : TState) (path : String) : TState :=
  let full := pyStrip path
  let localName := localNameOf full
  let refs := env.resolve full
  if refs.isEmpty then
    { st with report := st.report ++ [(full, "Not found", "N/A")] }
  else
    let st := { st with cnt := total }
    refs.foldl (processRef env action localName full) st

/-- The shared toggle workflow: the path loop followed by the commit
policy of lines 395-405 / 517-527. -/
def toggleCore (kind : ToggleKind) (env : ToggleEnv) (action : Nat)
    (paths : List String) : TState :=
  let st := paths.foldl (processPath env action paths.length) ⟨[], 0, 0, []⟩
  if 1 < st.cnt ∧ 0 < st.modCnt then
    { st with trace := st.trace ++ [TEvent.activate (aggComment kind action st.modCnt)] }
  else if st.modCnt = 0 then
    { st with trace := st.trace ++ [TEvent.discard] }
  else st

/-- `manage_proxy_services`, lines 296-417. -/
def manage_proxy_services (env : ToggleEnv) (action : Nat)
    (paths : List String) : TState :=
  toggleCore .enablement env action paths

/-- `proxy_services_monitoring`, lines 419-538. -/
def proxy_services_monitoring (env : ToggleEnv) (action : Nat)
    (paths : List String) : TState :=
  toggleCore .monitoring env action paths

/-! ### Specification predicates -/

/-- A JMS module holding no destination of the given name of any of the
three kinds. -/
def missesQueue (m : JmsModule) (qn : String) : Prop :=
  lookupQ m.udqs qn = none ∧ lookupQ m.queues qn = none ∧
    ∀ s ∈ m.servers, s.dests.contains qn = false

instance (m : JmsModule) (qn : String) : Decidable (missesQueue m qn) := by
  unfold missesQueue
  infer_instance

/-- The lookups `delete_queue` performs in a module that misses: the
distributed-queue lookup, the plain-queue lookup, then one foreign lookup
per foreign server of the module. -/
def missTrace (qn : String) (m : JmsModule) : List QAction :=
  QAction.lookupUdq m.name qn :: QAction.lookupQueue m.name qn ::
    m.servers.map fun s => QAction.lookupForeign m.name s.name qn

/-- Every `modify` in the trace is immediately followed by an activation
with the given comment. -/
def ImmAct (c : String) : List TEvent → Prop
  | [] => True
  | TEvent.modify _ :: rest => rest.head? = some (TEvent.activate c) ∧ ImmAct c rest
  | _ :: rest => ImmAct c rest

/-- Whether processing a ref modifies it (current state differs from the
requested action). -/
def changed (env : ToggleEnv) (action : Nat) (r : String) : Bool :=
  decide (¬ action = curInt env r)

/-- The trace events one ref contributes inside the ref loop, with `c` the
value of `prx_full_names_cnt` at that point. -/
def refChunk (env : ToggleEnv) (action : Nat) (localName : String) (c : Nat)
    (r : String) : List TEvent :=
  if action = curInt env r then []
  else
    TEvent.modify r ::
      (if c = 1 then [TEvent.activate (perItemComment action localName)] else [])

/-- The report row one ref contributes inside the ref loop. -/
def refRow (env : ToggleEnv) (action : Nat) (full : String) (r : String) : Row :=
  if action = curInt env r then (full, actionCap action ++ "d*", env.uri r)
  else (full, actionCap action ++ "d", env.uri r)

/-! ### Concrete instances used by the claim-level theorems -/

/-- A dependency row with a plain HTTP URI. -/
def rowHttp : DetailRow := ⟨"PrjA/Proxy/Px", true, "http://host/sv", "wmA"⟩

/-- A dependency row whose URI points into JMS. -/
def rowJms : DetailRow := ⟨"PrjB/Proxy/Px", true, "jms://host/jndi.Q1", "wmB"⟩

/-- Environment where the project ref does not exist inside the session
view (a race with another actor). -/
def envRace : UndeployEnv :=
  { details := fun _ => .ok (.rows [rowHttp])
    existsInSession := fun _ => false
    deleteOk := fun _ => true
    answerDelete := fun _ => "Y"
    answerWm := fun _ => "Y"
    queueRows := fun _ => []
    wmRows := fun _ => [] }

/-- Environment where the user declines the project-deletion prompt. -/
def envDecline : UndeployEnv :=
  { details := fun _ => .ok (.rows [rowJms])
    existsInSession := fun _ => true
    deleteOk := fun _ => true
    answerDelete := fun _ => "N"
    answerWm := fun _ => "Y"
    queueRows := fun q => [("Queue", q, "Deleted")]
    wmRows := fun w => [("Work manager", w, "Deleted")] }

/-- A registry holding one project that owns no endpoints. -/
def regEmptyPrj : Registry := [⟨"EmptyPrj", []⟩]

/-- Environment wired to `regEmptyPrj`, everything confirmed. -/
def envEmptyPrj : UndeployEnv :=
  { details := fun p => .ok (get_prj_details regEmptyPrj p)
    existsInSession := fun _ => true
    deleteOk := fun _ => true
    answerDelete := fun _ => "Y"
    answerWm := fun _ => "Y"
    queueRows := fun _ => []
    wmRows := fun _ => [] }

/-- Environment where discovery of the first project raises. -/
def envAbort : UndeployEnv :=
  { details := fun p => if p = "Prj1" then .error () else .ok (.str "Not found")
    existsInSession := fun _ => true
    deleteOk := fun _ => true
    answerDelete := fun _ => "Y"
    answerWm := fun _ => "Y"
    queueRows := fun _ => []
    wmRows := fun _ => [] }

/-- Environment where deleting the first project fails but discovery never
raises. -/
def envDelFail : UndeployEnv :=
  { details := fun _ => .ok (.rows [rowHttp])
    existsInSession := fun _ => true
    deleteOk := fun p => p != "Prj1"
    answerDelete := fun _ => "Y"
    answerWm := fun _ => "Y"
    queueRows := fun _ => []
    wmRows := fun _ => [] }

/-- Three endpoints of one project referencing the same queue name `QQ`
through three different JMS URIs, plus one non-sentinel work manager. -/
def rowsTriple : List DetailRow :=
  [⟨"Prj5/Biz/A", true, "jms://h1/a.QQ", "wm5"⟩,
   ⟨"Prj5/Biz/B", true, "jms://h2/b.QQ", "wm5"⟩,
   ⟨"Prj5/Biz/C", false, "jms://h3/c.QQ", "None"⟩]

/-- Environment whose details report is `rowsTriple`, everything
confirmed. -/
def envTriple : UndeployEnv :=
  { details := fun _ => .ok (.rows rowsTriple)
    existsInSession := fun _ => true
    deleteOk := fun _ => true
    answerDelete := fun _ => "Y"
    answerWm := fun _ => "Y"
    queueRows := fun q => [("Queue", q, "Deleted")]
    wmRows := fun w => [("Work manager", w, "Deleted")] }

/-- Two JMS modules: module `A` holds a distributed queue `q`, module `B`
holds a plain queue `q`. -/
def regTwoModules : List JmsModule :=
  [⟨"A", [⟨"q", none⟩], [], []⟩, ⟨"B", [], [⟨"q", none⟩], []⟩]

/-- One JMS module whose distributed queue `QD` has the error destination
`QD_dmq`. -/
def regDmq : List JmsModule :=
  [⟨"ModA", [⟨"QD", some "QD_dmq"⟩], [], []⟩]

/-- Toggle environment: the single path `Prj/F/Px` resolves to one ref
that is currently disabled. -/
def envToggle : ToggleEnv :=
  { resolve := fun p => if p = "Prj/F/Px" then ["refPx"] else []
    cur := fun _ => false
    uri := fun _ => "http://host/px" }

/-! ## Theorems

Helper lemmas first, then one theorem per claim (with witnesses and
counterexamples where applicable). -/

theorem foldl_uniq_eq (l : List String) :
    ∀ acc : List String,
      l.foldl (fun acc x => if x ∈ acc then acc else acc ++ [x]) acc
        = acc ++ newNames acc l := by
  induction l with
  | nil => intro acc; simp [newNames]
  | cons x xs ih =>
    intro acc
    by_cases hx : x ∈ acc
    · simp [List.foldl_cons, newNames, hx, ih]
    · simp [List.foldl_cons, newNames, hx, ih (acc ++ [x]), List.append_assoc]

theorem newNames_congr :
    ∀ (l : List String) (acc acc2 : List String),
      (∀ a, a ∈ acc ↔ a ∈ acc2) → newNames acc l = newNames acc2 l := by
  intro l
  induction l with
  | nil => intro acc acc2 _; rfl
  | cons x xs ih =>
    intro acc acc2 h
    by_cases hx : x ∈ acc
    · have hx2 : x ∈ acc2 := (h x).mp hx
      simp [newNames, hx, hx2, ih acc acc2 h]
    · have hx2 : x ∉ acc2 := fun hc => hx ((h x).mpr hc)
      have hext : ∀ a, a ∈ acc ++ [x] ↔ a ∈ acc2 ++ [x] := by
        intro a; simp [List.mem_append, h a]
      simp [newNames, hx, hx2, ih (acc ++ [x]) (acc2 ++ [x]) hext]

theorem newNames_filter :
    ∀ (l : List String) (acc : List String) (x : String),
      newNames (acc ++ [x]) l = newNames acc (l.filter (fun y => y != x)) := by
  intro l
  induction l with
  | nil => intro acc x; rfl
  | cons y ys ih =>
    intro acc x
    by_cases hyx : y = x
    · subst hyx
      have hy : y ∈ acc ++ [y] := by simp
      simp [newNames, hy, List.filter_cons, ih]
    · by_cases hya : y ∈ acc
      · have hy : y ∈ acc ++ [x] := by simp [hya]
        simp [newNames, hy, List.filter_cons, hyx, hya, ih]
      · have hy : y ∉ acc ++ [x] := by simp [hya, hyx]
        have hcongr : ∀ a, a ∈ acc ++ [x] ++ [y] ↔ a ∈ acc ++ [y] ++ [x] := by
          intro a; simp [List.mem_append]; tauto
        have step1 : newNames (acc ++ [x] ++ [y]) ys = newNames (acc ++ [y] ++ [x]) ys :=
          newNames_congr ys _ _ hcongr
        have step2 : newNames (acc ++ [y] ++ [x]) ys
            = newNames (acc ++ [y]) (ys.filter (fun z => z != x)) := ih (acc ++ [y]) x
        have hfy : (y != x) = true := by simp [hyx]
        show newNames (acc ++ [x]) (y :: ys)
            = newNames acc (List.filter (fun z => z != x) (y :: ys))
        rw [List.filter_cons, if_pos hfy]
        simp only [newNames, hy, hya, if_neg, not_false_eq_true, ite_false]
        rw [step1, step2]

/-- `uniqAppend` keeps the first occurrence of each name: its defining
recursion is that of first-seen de-duplication. -/
theorem uniqAppend_cons (x : String) (xs : List String) :
    uniqAppend (x :: xs) = x :: uniqAppend (xs.filter (fun y => y != x)) := by
  have h1 : uniqAppend (x :: xs) = [x] ++ newNames [x] xs := by
    simpa [uniqAppend, List.foldl_cons] using foldl_uniq_eq xs [x]
  have h2 : uniqAppend (xs.filter (fun y => y != x))
      = newNames [] (xs.filter (fun y => y != x)) := by
    simpa [uniqAppend] using foldl_uniq_eq (xs.filter (fun y => y != x)) []
  have h3 : newNames ([] ++ [x]) xs = newNames [] (xs.filter (fun y => y != x)) :=
    newNames_filter xs [] x
  simp only [List.nil_append] at h3
  rw [h1, h2, ← h3]
  rfl

theorem mem_foldl_uniq (a : String) (l : List String) :
    ∀ acc : List String,
      (a ∈ l.foldl (fun acc x => if x ∈ acc then acc else acc ++ [x]) acc)
        ↔ a ∈ acc ∨ a ∈ l := by
  induction l with
  | nil => intro acc; simp
  | cons x xs ih =>
    intro acc
    by_cases hx : x ∈ acc
    · constructor
      · intro h
        rcases (ih _).mp (by simpa [List.foldl_cons, hx] using h) with h1 | h1
        · exact Or.inl h1
        · exact Or.inr (List.mem_cons_of_mem _ h1)
      · intro h
        simp only [List.foldl_cons, hx, if_true]
        rcases h with h1 | h1
        · exact (ih acc).mpr (Or.inl h1)
        · rcases List.mem_cons.mp h1 with h2 | h2
          · exact (ih acc).mpr (Or.inl (h2 ▸ hx))
          · exact (ih acc).mpr (Or.inr h2)
    · constructor
      · intro h
        rcases (ih _).mp (by simpa [List.foldl_cons, hx] using h) with h1 | h1
        · rcases List.mem_append.mp h1 with h2 | h2
          · exact Or.inl h2
          · exact Or.inr (by simpa using List.mem_cons.mpr (Or.inl (by simpa using h2)))
        · exact Or.inr (List.mem_cons_of_mem _ h1)
      · intro h
        simp only [List.foldl_cons, hx, if_false]
        rcases h with h1 | h1
        · exact (ih _).mpr (Or.inl (by simp [h1]))
        · rcases List.mem_cons.mp h1 with h2 | h2
          · exact (ih _).mpr (Or.inl (by simp [h2]))
          · exact (ih _).mpr (Or.inr h2)

/-- Membership in the de-duplicated list agrees with the original list. -/
theorem mem_uniqAppend (a : String) (l : List String) :
    a ∈ uniqAppend l ↔ a ∈ l := by
  simpa [uniqAppend] using mem_foldl_uniq a l []

theorem nodup_acc_newNames :
    ∀ (l : List String) (acc : List String),
      acc.Nodup → (acc ++ newNames acc l).Nodup := by
  intro l
  induction l with
  | nil => intro acc h; simpa [newNames]
  | cons x xs ih =>
    intro acc h
    by_cases hx : x ∈ acc
    · simpa [newNames, hx] using ih acc h
    · have h2 : (acc ++ [x]).Nodup := by
        simp [List.nodup_append, h, hx]
      have h3 := ih (acc ++ [x]) h2
      rw [List.append_assoc] at h3
      simpa [newNames, hx] using h3

/-- The de-duplicated list has no duplicates. -/
theorem uniqAppend_nodup (l : List String) : (uniqAppend l).Nodup := by
  have := nodup_acc_newNames l [] List.nodup_nil
  simpa [uniqAppend, foldl_uniq_eq l []] using this

/-- Each name appears exactly once in the de-duplicated list. -/
theorem uniqAppend_count_eq_one (l : List String) (a : String) (h : a ∈ l) :
    (uniqAppend l).count a = 1 :=
  List.count_eq_one_of_mem (uniqAppend_nodup l) ((mem_uniqAppend a l).mpr h)

/-! ### Claim C1 -/

/-- C1: the claim that every opened session or edit transaction reaches a
terminal state on every path is violated by the code.  Evaluating the
embedding at the two failing inputs the claim itself names: when the
project ref does not exist inside the session view, `undeploy_osb_prj`
appends a Not found row and `continue`s (lines 144-148) without discarding,
so the session final state is `leftOpen`; and `delete_work_manager` on a
name that is not found only appends a row (lines 747-758) — the edit
transaction opened by `edit(); startEdit()` is neither activated nor
cancelled. -/
theorem c1_terminal_state_violated :
    (undeploy_osb_prj envRace ["PrjA"]).sessions = [("PrjA", SessFinal.leftOpen)] ∧
    delete_work_manager [] "wmX"
      = ([("Work manager", "wmX", "Not found")], EditFinal.leftOpen) := by
  refine ⟨?_, ?_⟩ <;> decide

/-! ### Claim C3 -/

/-- C3: when the user declines the project-deletion confirmation the code
emits the Skipped row and stops for that project without any cascade
(no QueueReaper or WorkManagerReaper invocation), as claimed — but it does
NOT discard the session: lines 140-143 `continue` without a
`discard_session` call, so the session stays open. -/
theorem c3_declined_leaves_session_open :
    (undeploy_osb_prj envDecline ["PrjB"]).report
      = [("OSB project", "PrjB", "Skipped by user")] ∧
    (undeploy_osb_prj envDecline ["PrjB"]).queueCalls = [] ∧
    (undeploy_osb_prj envDecline ["PrjB"]).wmCalls = [] ∧
    (undeploy_osb_prj envDecline ["PrjB"]).sessions
      = [("PrjB", SessFinal.leftOpen)] := by
  refine ⟨?_, ?_, ?_, ?_⟩ <;> decide

/-! ### Claim C4 -/

/-- C4: the Project-is-empty outcome row is never emitted: for a project
that exists and owns no endpoints `get_prj_details` returns the sentinel
`"Empty"` (line 289), but `undeploy_osb_prj` compares against
`"Project is empty"` (line 107), so that branch is dead; the run proceeds
to delete the project (a Deleted row, cascade skipped) with no
`Project is empty` row anywhere in the report. -/
theorem c4_empty_project_row_never_emitted :
    get_prj_details regEmptyPrj "EmptyPrj" = PyVal.str "Empty" ∧
    (undeploy_osb_prj envEmptyPrj ["EmptyPrj"]).report
      = [("OSB project", "EmptyPrj", "Deleted")] ∧
    ("OSB project", "EmptyPrj", "Project is empty")
      ∉ (undeploy_osb_prj envEmptyPrj ["EmptyPrj"]).report ∧
    (undeploy_osb_prj envEmptyPrj ["EmptyPrj"]).queueCalls = [] ∧
    (undeploy_osb_prj envEmptyPrj ["EmptyPrj"]).wmCalls = [] := by
  refine ⟨?_, ?_, ?_, ?_, ?_⟩ <;> decide

/-! ### Claim C5 -/

theorem wm_fold_all_yes (env : UndeployEnv)
    (hwm : ∀ w, yes (env.answerWm w) = true) :
    ∀ (ws : List String) (acc : List Row × List String),
      ws.foldl
        (fun (acc : List Row × List String) w =>
          if yes (env.answerWm w) then (acc.1 ++ env.wmRows w, acc.2 ++ [w])
          else (acc.1 ++ [("Work manager", w, "Skipped")], acc.2)) acc
        = (acc.1 ++ ws.flatMap env.wmRows, acc.2 ++ ws) := by
  intro ws
  induction ws with
  | nil => intro acc; simp
  | cons w ws ih =>
    intro acc
    simp only [List.foldl_cons, hwm w, if_true, ih, List.flatMap_cons,
      List.append_assoc, List.cons_append, List.nil_append]

/-- C5: once a project is deleted (details came back as a nonempty row
list, the ref existed in the session, the deletion was confirmed and
succeeded), the queue names passed to `delete_queue` are exactly the
de-duplication of the names derived from rows whose URI contains
`"jms://"` (last dot-token of the trailing slash-segment), and — with the
per-name work-manager prompts confirmed — the work-manager names passed to
`delete_work_manager` are exactly the de-duplication of the non-sentinel,
nonempty names.  Both call lists are duplicate-free, each name is invoked
exactly once, every invoked queue name comes from a `jms://` URI of the
captured rows, and the de-duplication keeps first-seen order (its defining
recursion keeps the head and drops later equals). -/
theorem c5_unique_reaper_calls (env : UndeployEnv) (name : String)
    (r0 : DetailRow) (rs : List DetailRow)
    (hd : env.details (pyStrip name) = Except.ok (PyVal.rows (r0 :: rs)))
    (hex : env.existsInSession (pyStrip name) = true)
    (hconf : yes (env.answerDelete (pyStrip name)) = true)
    (hdel : env.deleteOk (pyStrip name) = true)
    (hwm : ∀ w, yes (env.answerWm w) = true) :
    (processOne env name).queueCalls = uniqAppend (jmsQueueNames (r0 :: rs)) ∧
    (processOne env name).wmCalls = uniqAppend (wmCandidates (r0 :: rs)) ∧
    (processOne env name).queueCalls.Nodup ∧
    (processOne env name).wmCalls.Nodup ∧
    (∀ q, q ∈ (processOne env name).queueCalls ↔ q ∈ jmsQueueNames (r0 :: rs)) ∧
    (∀ q ∈ (processOne env name).queueCalls,
      (processOne env name).queueCalls.count q = 1) ∧
    (∀ q ∈ (processOne env name).queueCalls, ∃ row ∈ r0 :: rs,
      strHasSub "jms://" row.uri = true ∧ q = queueNameOfUri row.uri) ∧
    (∀ w ∈ (processOne env name).wmCalls,
      w ∉ sentinelWms ∧ w ≠ "" ∧ (processOne env name).wmCalls.count w = 1) ∧
    (∀ (x : String) (l : List String),
      uniqAppend (x :: l) = x :: uniqAppend (l.filter fun y => y != x)) := by
  have hq : (processOne env name).queueCalls = uniqAppend (jmsQueueNames (r0 :: rs)) := by
    simp [processOne, hd, hex, hconf, hdel, cascade]
  have hw : (processOne env name).wmCalls = uniqAppend (wmCandidates (r0 :: rs)) := by
    simp [processOne, hd, hex, hconf, hdel, cascade, wm_fold_all_yes env hwm]
  refine ⟨hq, hw, ?_, ?_, ?_, ?_, ?_, ?_, ?_⟩
  · rw [hq]; exact uniqAppend_nodup _
  · rw [hw]; exact uniqAppend_nodup _
  · intro q; rw [hq]; exact mem_uniqAppend q _
  · intro q hmem
    rw [hq] at hmem ⊢
    exact List.count_eq_one_of_mem (uniqAppend_nodup _) hmem
  · intro q hmem
    rw [hq] at hmem
    have hmem2 := (mem_uniqAppend q _).mp hmem
    simp only [jmsQueueNames, List.mem_map, List.mem_filter,
      Bool.and_eq_true] at hmem2
    obtain ⟨row, ⟨hrow, _, hsub⟩, heq⟩ := hmem2
    exact ⟨row, hrow, hsub, heq.symm⟩
  · intro w hmem
    rw [hw] at hmem
    have hmem2 := (mem_uniqAppend w _).mp hmem
    simp only [wmCandidates, List.mem_map, List.mem_filter,
      Bool.and_eq_true] at hmem2
    obtain ⟨row, ⟨_, hne, hsent⟩, heq⟩ := hmem2
    subst heq
    refine ⟨?_, ?_, ?_⟩
    · intro hin
      simp only [Bool.not_eq_true'] at hsent
      have hc : sentinelWms.contains row.wm = true := by simp [hin]
      rw [hc] at hsent
      simp at hsent
    · simpa using hne
    · rw [hw]
      exact List.count_eq_one_of_mem (uniqAppend_nodup _) hmem
  · intro x l; exact uniqAppend_cons x l

/-- Witness for C5: three endpoints referencing queue `QQ` through three
different URIs produce exactly one `delete_queue` invocation for `QQ`. -/
theorem c5_unique_reaper_calls_witness :
    (processOne envTriple "Prj5").queueCalls = uniqAppend (jmsQueueNames rowsTriple) ∧
    uniqAppend (jmsQueueNames rowsTriple) = ["QQ"] ∧
    (processOne envTriple "Prj5").wmCalls = uniqAppend (wmCandidates rowsTriple) ∧
    uniqAppend (wmCandidates rowsTriple) = ["wm5"] := by
  have h := c5_unique_reaper_calls envTriple "Prj5"
    ⟨"Prj5/Biz/A", true, "jms://h1/a.QQ", "wm5"⟩
    [⟨"Prj5/Biz/B", true, "jms://h2/b.QQ", "wm5"⟩,
     ⟨"Prj5/Biz/C", false, "jms://h3/c.QQ", "None"⟩]
    rfl rfl rfl rfl (fun _ => rfl)
  exact ⟨h.1, by decide, h.2.1, by decide⟩

/-! ### Claim C6 — counterexample -/

/-- C6 counterexample: in `regTwoModules`, module `A` holds a distributed
queue named `q` (so the trace entry `lookupUdq "A" "q"` is a match — the
declined branch then appends a Skipped row and cancels), and module `B`
holds a plain queue `q`.  With every confirmation declined the trace shows
a plain-queue lookup for `q` in the later module `B` after the
distributed-queue match in `A`: the claimed short-circuit does not hold,
because the declined branches of lines 844-847 and 905-909 do not break
the module loop. -/
theorem c6_counterexample :
    (delete_queue regTwoModules (fun _ => "N") "q").2
      = [QAction.startEdit, QAction.lookupUdq "A" "q", QAction.cancelEdit,
         QAction.lookupUdq "B" "q", QAction.lookupQueue "B" "q",
         QAction.cancelEdit] ∧
    QAction.lookupQueue "B" "q" ∈ (delete_queue regTwoModules (fun _ => "N") "q").2 := by
  refine ⟨?_, ?_⟩ <;> decide

/-! ### Claims C6 (amended) and C7 — `delete_queue` search lemmas -/

theorem processForeign_miss (ans : Nat → String) (qn mname : String) :
    ∀ (servers : List ForeignServer) (rep : List Row) (tr : List QAction)
      (found : Bool) (k : Nat),
      (∀ s ∈ servers, s.dests.contains qn = false) →
      processForeign ans qn mname servers rep tr found k
        = (rep, tr ++ servers.map (fun s => QAction.lookupForeign mname s.name qn),
            found, k) := by
  intro servers
  induction servers with
  | nil => intro rep tr found k _; simp [processForeign]
  | cons s ss ih =>
    intro rep tr found k h
    have hs := h s (List.mem_cons_self s ss)
    have h2 := ih (rep) (tr ++ [QAction.lookupForeign mname s.name qn]) found k
      fun x hx => h x (List.mem_cons_of_mem _ hx)
    simp only [processForeign, hs, Bool.false_eq_true, if_false, h2,
      List.map_cons, List.append_assoc, List.cons_append, List.nil_append]

theorem processModules_miss_step (ans : Nat → String) (qn : String)
    (m : JmsModule) (rest : List JmsModule) (hm : missesQueue m qn) :
    ∀ (rep : List Row) (tr : List QAction) (k : Nat),
      processModules ans qn (m :: rest) rep tr false k
        = processModules ans qn rest rep (tr ++ missTrace qn m) false k := by
  intro rep tr k
  obtain ⟨h1, h2, h3⟩ := hm
  simp only [processModules, h1, h2]
  rw [processForeign_miss ans qn m.name m.servers _ _ _ _ h3]
  simp [missTrace, List.append_assoc]

theorem processModules_skip_misses (ans : Nat → String) (qn : String) :
    ∀ (pre : List JmsModule) (rest : List JmsModule),
      (∀ mod ∈ pre, missesQueue mod qn) →
      ∀ (rep : List Row) (tr : List QAction) (k : Nat),
        processModules ans qn (pre ++ rest) rep tr false k
          = processModules ans qn rest rep (tr ++ pre.flatMap (missTrace qn)) false k := by
  intro pre
  induction pre with
  | nil => intro rest _ rep tr k; simp
  | cons m pres ih =>
    intro rest h rep tr k
    rw [List.cons_append,
      processModules_miss_step ans qn m _ (h m (List.mem_cons_self m pres)),
      ih rest (fun x hx => h x (List.mem_cons_of_mem _ hx)) rep (tr ++ missTrace qn m) k]
    simp [List.flatMap_cons, List.append_assoc]

theorem processModules_udq_hit (ans : Nat → String) (qn : String)
    (m : JmsModule) (post : List JmsModule) (q : QQueue)
    (hm : lookupQ m.udqs qn = some q) (rep : List Row) (tr : List QAction)
    (k : Nat) (hconf : yes (ans k) = true) :
    ∃ rep2 mid,
      processModules ans qn (m :: post) rep tr false k
        = (rep2, tr ++ QAction.lookupUdq m.name qn :: mid, true) ∧
      ∀ a ∈ mid, a.isLookup = false := by
  cases hdmq : q.dmq with
  | none =>
    refine ⟨rep ++ [("UniformDistributedQueue", qn, "Deleted")],
      [QAction.resolveDmq qn, QAction.destroyUdq qn, QAction.saveActivate], ?_, ?_⟩
    · simp [processModules, hm, hconf, hdmq, List.append_assoc]
    · intro a ha
      simp only [List.mem_cons, List.not_mem_nil, or_false] at ha
      rcases ha with h | h | h <;> subst h <;> rfl
  | some d =>
    by_cases h2 : yes (ans (k + 1)) = true
    · refine ⟨rep ++ [("UniformDistributedQueue", qn, "Deleted"), ("DMQ", d, "Deleted")],
        [QAction.resolveDmq qn, QAction.destroyUdq qn, QAction.destroyUdq d,
         QAction.saveActivate], ?_, ?_⟩
      · simp [processModules, hm, hconf, hdmq, h2, List.append_assoc]
      · intro a ha
        simp only [List.mem_cons, List.not_mem_nil, or_false] at ha
        rcases ha with h | h | h | h <;> subst h <;> rfl
    · rw [Bool.not_eq_true] at h2
      refine ⟨rep ++ [("DMQ", d, "Skipped"), ("UniformDistributedQueue", qn, "Deleted")],
        [QAction.resolveDmq qn, QAction.destroyUdq qn, QAction.saveActivate], ?_, ?_⟩
      · simp [processModules, hm, hconf, hdmq, h2, List.append_assoc]
      · intro a ha
        simp only [List.mem_cons, List.not_mem_nil, or_false] at ha
        rcases ha with h | h | h <;> subst h <;> rfl

/-- C6 amended: the search is in registry order with per-module order
distributed queue first, then plain queue, then foreign destinations, and
it stops at the first match — provided the match is confirmed for
deletion.  (When the user declines the match, the loop does not break and
lookups continue in later modules; see the counterexample.)  Concretely:
with every module before `m` missing the name, the distributed queue
matching in `m`, and the first confirmation affirmative, the whole trace
is the per-module miss lookups of the earlier modules in order, then the
distributed-queue lookup in `m`, then non-lookup actions only — so no
plain-queue or foreign lookup happens in `m` or in any later module. -/
theorem c6_amended_search (ans : Nat → String) (qn : String)
    (pre post : List JmsModule) (m : JmsModule) (q : QQueue)
    (hqn : pyStrip qn = qn) (hne : qn ≠ "")
    (hpre : ∀ mod ∈ pre, missesQueue mod qn)
    (hm : lookupQ m.udqs qn = some q)
    (hconf : yes (ans 0) = true) :
    ∃ mid,
      (delete_queue (pre ++ m :: post) ans qn).2
        = QAction.startEdit ::
            (pre.flatMap (missTrace qn) ++ QAction.lookupUdq m.name qn :: mid) ∧
      ∀ a ∈ mid, a.isLookup = false := by
  obtain ⟨rep2, mid, heq, hmid⟩ := processModules_udq_hit ans qn m post q hm []
    ([QAction.startEdit] ++ pre.flatMap (missTrace qn)) 0 hconf
  refine ⟨mid, ?_, hmid⟩
  unfold delete_queue
  rw [hqn]
  simp only [hne, if_false]
  rw [processModules_skip_misses ans qn pre (m :: post) hpre [] [QAction.startEdit] 0]
  rw [show ([QAction.startEdit] : List QAction) ++ pre.flatMap (missTrace qn)
      = [QAction.startEdit] ++ pre.flatMap (missTrace qn) from rfl] at heq
  rw [heq]
  simp

/-- Witness for C6 amended: a missing module `M0`, the match in `A`, a
later module `B`, everything confirmed. -/
theorem c6_amended_search_witness :
    (∀ mod ∈ [(⟨"M0", [], [], []⟩ : JmsModule)], missesQueue mod "q") ∧
    ∃ mid,
      (delete_queue ([(⟨"M0", [], [], []⟩ : JmsModule)]
          ++ (⟨"A", [⟨"q", none⟩], [], []⟩ : JmsModule)
            :: [⟨"B", [], [⟨"q", none⟩], []⟩]) (fun _ => "Y") "q").2
        = QAction.startEdit ::
            ([(⟨"M0", [], [], []⟩ : JmsModule)].flatMap (missTrace "q")
              ++ QAction.lookupUdq "A" "q" :: mid) ∧
      ∀ a ∈ mid, a.isLookup = false :=
  ⟨by decide,
    c6_amended_search (fun _ => "Y") "q" [⟨"M0", [], [], []⟩]
      [⟨"B", [], [⟨"q", none⟩], []⟩] ⟨"A", [⟨"q", none⟩], [], []⟩ ⟨"q", none⟩
      (by decide) (by decide) (by decide) (by decide) (by decide)⟩

/-! ### Claim C7 -/

/-- C7: when the first match for the name (distributed or plain queue, in
a module preceded only by missing modules) carries a configured
dead-letter destination `d`, the primary deletion is confirmed and the DMQ
deletion is declined, the outcome holds exactly two rows — the DMQ row
Skipped and the primary row Deleted — and the trace shows the DMQ being
resolved before the primary destination is destroyed. -/
theorem c7_dead_letter (ans : Nat → String) (qn : String)
    (pre post : List JmsModule) (m : JmsModule) (q : QQueue) (d : String)
    (hqn : pyStrip qn = qn) (hne : qn ≠ "")
    (hpre : ∀ mod ∈ pre, missesQueue mod qn)
    (hdmq : q.dmq = some d)
    (hconf1 : yes (ans 0) = true) (hconf2 : yes (ans 1) = false)
    (hm : lookupQ m.udqs qn = some q ∨
      (lookupQ m.udqs qn = none ∧ lookupQ m.queues qn = some q)) :
    ∃ ty dev,
      ((ty = "UniformDistributedQueue" ∧ dev = QAction.destroyUdq qn) ∨
        (ty = "Queue" ∧ dev = QAction.destroyQueue qn)) ∧
      (delete_queue (pre ++ m :: post) ans qn).1
        = [("DMQ", d, "Skipped"), (ty, qn, "Deleted")] ∧
      List.Sublist [QAction.resolveDmq qn, dev]
        (delete_queue (pre ++ m :: post) ans qn).2 := by
  have hwrap : ∀ rep tr found,
      processModules ans qn (pre ++ m :: post) [] [QAction.startEdit] false 0
          = (rep, tr, found) →
      found = true →
      delete_queue (pre ++ m :: post) ans qn = (rep, tr) := by
    intro rep tr found hpm hf
    unfold delete_queue
    rw [hqn]
    simp only [hne, if_false]
    rw [hpm, hf]
    simp
  have hpref := processModules_skip_misses ans qn pre (m :: post) hpre
    [] [QAction.startEdit] 0
  rcases hm with hudq | ⟨hudqn, hplain⟩
  · refine ⟨"UniformDistributedQueue", QAction.destroyUdq qn, Or.inl ⟨rfl, rfl⟩, ?_⟩
    have hstep : processModules ans qn (m :: post) []
        ([QAction.startEdit] ++ pre.flatMap (missTrace qn)) false 0
        = ([("DMQ", d, "Skipped"), ("UniformDistributedQueue", qn, "Deleted")],
            (([QAction.startEdit] ++ pre.flatMap (missTrace qn))
              ++ [QAction.lookupUdq m.name qn])
              ++ [QAction.resolveDmq qn, QAction.destroyUdq qn, QAction.saveActivate],
            true) := by
      simp [processModules, hudq, hconf1, hdmq, hconf2, List.append_assoc]
    have hdq := hwrap _ _ _ (hpref.trans hstep) rfl
    rw [hdq]
    refine ⟨rfl, ?_⟩
    exact (List.sublist_append_left [QAction.resolveDmq qn, QAction.destroyUdq qn]
      [QAction.saveActivate]).trans (List.sublist_append_right _ _)
  · refine ⟨"Queue", QAction.destroyQueue qn, Or.inr ⟨rfl, rfl⟩, ?_⟩
    have hstep : processModules ans qn (m :: post) []
        ([QAction.startEdit] ++ pre.flatMap (missTrace qn)) false 0
        = ([("DMQ", d, "Skipped"), ("Queue", qn, "Deleted")],
            (([QAction.startEdit] ++ pre.flatMap (missTrace qn))
              ++ [QAction.lookupUdq m.name qn, QAction.lookupQueue m.name qn])
              ++ [QAction.resolveDmq qn, QAction.destroyQueue qn, QAction.saveActivate],
            true) := by
      simp [processModules, hudqn, hplain, hconf1, hdmq, hconf2, List.append_assoc]
    have hdq := hwrap _ _ _ (hpref.trans hstep) rfl
    rw [hdq]
    refine ⟨rfl, ?_⟩
    exact (List.sublist_append_left [QAction.resolveDmq qn, QAction.destroyQueue qn]
      [QAction.saveActivate]).trans (List.sublist_append_right _ _)

/-- Witness for C7: one module whose distributed queue `QD` has the DMQ
`QD_dmq`; primary confirmed, DMQ declined. -/
theorem c7_dead_letter_witness :
    ∃ ty dev,
      ((ty = "UniformDistributedQueue" ∧ dev = QAction.destroyUdq "QD") ∨
        (ty = "Queue" ∧ dev = QAction.destroyQueue "QD")) ∧
      (delete_queue regDmq (fun k => if k = 0 then "Y" else "N") "QD").1
        = [("DMQ", "QD_dmq", "Skipped"), (ty, "QD", "Deleted")] ∧
      List.Sublist [QAction.resolveDmq "QD", dev]
        (delete_queue regDmq (fun k => if k = 0 then "Y" else "N") "QD").2 :=
  c7_dead_letter (fun k => if k = 0 then "Y" else "N") "QD" [] []
    ⟨"ModA", [⟨"QD", some "QD_dmq"⟩], [], []⟩ ⟨"QD", some "QD_dmq"⟩ "QD_dmq"
    (by decide) (by decide) (by decide) (by decide) (by decide) (by decide)
    (Or.inl (by decide))

/-! ### Claim C2 — commit-policy lemmas -/

theorem foldl_processRef (env : ToggleEnv) (action : Nat) (localName full : String) :
    ∀ (refs : List String) (st : TState),
      refs.foldl (processRef env action localName full) st
        = ⟨st.report ++ refs.map (refRow env action full),
           st.modCnt + refs.countP (changed env action),
           st.cnt,
           st.trace ++ refs.flatMap (refChunk env action localName st.cnt)⟩ := by
  intro refs
  induction refs with
  | nil => intro st; simp
  | cons r rs ih =>
    intro st
    rw [List.foldl_cons, ih]
    by_cases h : action = curInt env r
    · simp [processRef, h, refRow, refChunk, changed, List.countP_cons,
        List.append_assoc]
    · simp [processRef, h, refRow, refChunk, changed, List.countP_cons,
        List.append_assoc]
      omega

theorem processPath_inv (env : ToggleEnv) (action total : Nat)
    (st : TState) (path : String)
    (h1 : st.cnt = 0 ∨ st.cnt = total)
    (h2 : 0 < st.modCnt → st.cnt = total)
    (h3 : ∀ c, TEvent.activate c ∈ st.trace → total = 1 ∧ 0 < st.modCnt) :
    ((processPath env action total st path).cnt = 0 ∨
      (processPath env action total st path).cnt = total) ∧
    (0 < (processPath env action total st path).modCnt →
      (processPath env action total st path).cnt = total) ∧
    (∀ c, TEvent.activate c ∈ (processPath env action total st path).trace →
      total = 1 ∧ 0 < (processPath env action total st path).modCnt) := by
  unfold processPath
  by_cases hres : (env.resolve (pyStrip path)).isEmpty
  · simp only [hres, if_true]
    exact ⟨h1, h2, h3⟩
  · simp only [hres, Bool.false_eq_true, if_false]
    rw [foldl_processRef env action (localNameOf (pyStrip path)) (pyStrip path)]
    refine ⟨Or.inr rfl, fun _ => rfl, ?_⟩
    intro c hc
    have hc2 : TEvent.activate c ∈
        st.trace ++ (env.resolve (pyStrip path)).flatMap
          (refChunk env action (localNameOf (pyStrip path)) total) := hc
    rcases List.mem_append.mp hc2 with hc3 | hc3
    · obtain ⟨ht, hm⟩ := h3 c hc3
      exact ⟨ht, Nat.lt_of_lt_of_le hm (Nat.le_add_right _ _)⟩
    · obtain ⟨r, hr, hcr⟩ := List.mem_flatMap.mp hc3
      unfold refChunk at hcr
      by_cases hch : action = curInt env r
      · simp [hch] at hcr
      · simp only [hch, if_neg, not_false_eq_true, ite_false] at hcr
        rcases List.mem_cons.mp hcr with hcr1 | hcr1
        · cases hcr1
        · by_cases ht : total = 1
          · refine ⟨ht, ?_⟩
            have hcp : 0 < List.countP (changed env action)
                (env.resolve (pyStrip path)) := by
              rw [List.countP_pos_iff]
              exact ⟨r, hr, by simp [changed, hch]⟩
            exact Nat.lt_of_lt_of_le hcp (Nat.le_add_left _ _)
          · simp [ht] at hcr1


theorem pathsFold_inv (env : ToggleEnv) (action total : Nat) :
    ∀ (paths : List String) (st : TState),
      (st.cnt = 0 ∨ st.cnt = total) →
      (0 < st.modCnt → st.cnt = total) →
      (∀ c, TEvent.activate c ∈ st.trace → total = 1 ∧ 0 < st.modCnt) →
      ((paths.foldl (processPath env action total) st).cnt = 0 ∨
        (paths.foldl (processPath env action total) st).cnt = total) ∧
      (0 < (paths.foldl (processPath env action total) st).modCnt →
        (paths.foldl (processPath env action total) st).cnt = total) ∧
      (∀ c, TEvent.activate c ∈ (paths.foldl (processPath env action total) st).trace →
        total = 1 ∧ 0 < (paths.foldl (processPath env action total) st).modCnt) := by
  intro paths
  induction paths with
  | nil => intro st h1 h2 h3; exact ⟨h1, h2, h3⟩
  | cons p ps ih =>
    intro st h1 h2 h3
    rw [List.foldl_cons]
    obtain ⟨g1, g2, g3⟩ := processPath_inv env action total st p h1 h2 h3
    exact ih (processPath env action total st p) g1 g2 g3

theorem immAct_flat (c : String) :
    ∀ (refs : List String) (f : String → List TEvent) (tail : List TEvent),
      (∀ r ∈ refs, f r = [] ∨ f r = [TEvent.modify r, TEvent.activate c]) →
      ImmAct c tail → ImmAct c (refs.flatMap f ++ tail) := by
  intro refs
  induction refs with
  | nil => intro f tail _ ht; simpa using ht
  | cons r rs ih =>
    intro f tail h ht
    have hrest := ih f tail (fun x hx => h x (List.mem_cons_of_mem _ hx)) ht
    rcases h r (List.mem_cons_self r rs) with h0 | h0
    · simpa [List.flatMap_cons, h0] using hrest
    · rw [List.flatMap_cons, h0]
      show ImmAct c (TEvent.modify r :: TEvent.activate c :: (rs.flatMap f ++ tail))
      exact ⟨rfl, hrest⟩

theorem toggleCore_modCnt (kind : ToggleKind) (env : ToggleEnv) (action : Nat)
    (paths : List String) :
    (toggleCore kind env action paths).modCnt
      = (paths.foldl (processPath env action paths.length) ⟨[], 0, 0, []⟩).modCnt := by
  simp only [toggleCore]
  split
  · rfl
  · split <;> rfl

/-- C2: the commit policy of both bulk toggles (enablement and
monitoring).  If the input list is a single path, every modification is
followed immediately by an activation carrying the per-item comment, and
as soon as one modification happened such an activation is in the trace.
If the input list has more than one entry and at least one modification
happened, the trace ends with exactly one activation — carrying the
aggregate comment over the modification count — and no activation happens
before it.  If no modification happened at all, no activation ever
happens and the trace ends with the session discard. -/
theorem c2_commit_policy (kind : ToggleKind) (env : ToggleEnv) (action : Nat)
    (paths : List String) :
    (∀ p, paths = [p] →
      ImmAct (perItemComment action (localNameOf (pyStrip p)))
        (toggleCore kind env action paths).trace ∧
      (0 < (toggleCore kind env action paths).modCnt →
        TEvent.activate (perItemComment action (localNameOf (pyStrip p)))
          ∈ (toggleCore kind env action paths).trace)) ∧
    (1 < paths.length → 0 < (toggleCore kind env action paths).modCnt →
      ∃ tr, (toggleCore kind env action paths).trace
          = tr ++ [TEvent.activate
              (aggComment kind action (toggleCore kind env action paths).modCnt)] ∧
        ∀ c, TEvent.activate c ∉ tr) ∧
    ((toggleCore kind env action paths).modCnt = 0 →
      (∀ c, TEvent.activate c ∉ (toggleCore kind env action paths).trace) ∧
      ∃ tr, (toggleCore kind env action paths).trace = tr ++ [TEvent.discard]) := by
  set stL := paths.foldl (processPath env action paths.length) ⟨[], 0, 0, []⟩
    with hstLdef
  have hinv := pathsFold_inv env action paths.length paths ⟨[], 0, 0, []⟩
    (Or.inl rfl) (fun h => absurd h (Nat.lt_irrefl 0))
    (fun c hc => absurd hc (List.not_mem_nil _))
  rw [← hstLdef] at hinv
  have hcore : toggleCore kind env action paths
      = if 1 < stL.cnt ∧ 0 < stL.modCnt
        then { stL with
                trace := stL.trace ++ [TEvent.activate (aggComment kind action stL.modCnt)] }
        else if stL.modCnt = 0 then { stL with trace := stL.trace ++ [TEvent.discard] }
        else stL := rfl
  have hmodeq : (toggleCore kind env action paths).modCnt = stL.modCnt := by
    rw [hcore]
    split
    · rfl
    · split <;> rfl
  refine ⟨?_, ?_, ?_⟩
  · -- single-path branch
    intro p hp
    subst hp
    have hstL2 : stL = processPath env action 1 ⟨[], 0, 0, []⟩ p := by
      rw [hstLdef]
      rfl
    by_cases hres : (env.resolve (pyStrip p)).isEmpty
    · have hstL3 : stL = ⟨[(pyStrip p, "Not found", "N/A")], 0, 0, []⟩ := by
        rw [hstL2]
        unfold processPath
        simp [hres]
      have h0 : ¬(1 < stL.cnt ∧ 0 < stL.modCnt) := by
        rw [hstL3]
        rintro ⟨h, _⟩
        simp at h
      have hm0 : stL.modCnt = 0 := by rw [hstL3]
      have htr : (toggleCore kind env action [p]).trace
          = stL.trace ++ [TEvent.discard] := by
        rw [hcore, if_neg h0, if_pos hm0]
      constructor
      · rw [htr, hstL3]
        exact (trivial : True)
      · intro hmod
        rw [hmodeq, hm0] at hmod
        omega
    · have hchunks : ∀ r ∈ env.resolve (pyStrip p),
          refChunk env action (localNameOf (pyStrip p)) 1 r = [] ∨
          refChunk env action (localNameOf (pyStrip p)) 1 r
            = [TEvent.modify r,
               TEvent.activate (perItemComment action (localNameOf (pyStrip p)))] := by
        intro r _
        by_cases hch : action = curInt env r
        · exact Or.inl (by simp [refChunk, hch])
        · exact Or.inr (by simp [refChunk, hch])
      have hstL3 : stL
          = ⟨[] ++ List.map (refRow env action (pyStrip p)) (env.resolve (pyStrip p)),
             0 + List.countP (changed env action) (env.resolve (pyStrip p)), 1,
             [] ++ (env.resolve (pyStrip p)).flatMap
               (refChunk env action (localNameOf (pyStrip p)) 1)⟩ := by
        rw [hstL2]
        unfold processPath
        simp only [hres, Bool.false_eq_true, if_false]
        rw [foldl_processRef]
      by_cases hcp : List.countP (changed env action) (env.resolve (pyStrip p)) = 0
      · have hm0 : stL.modCnt = 0 := by rw [hstL3]; simpa using hcp
        have h0 : ¬(1 < stL.cnt ∧ 0 < stL.modCnt) := by
          rintro ⟨_, h⟩; omega
        have htr : (toggleCore kind env action [p]).trace
            = stL.trace ++ [TEvent.discard] := by
          rw [hcore, if_neg h0, if_pos hm0]
        constructor
        · rw [htr, hstL3]
          exact immAct_flat _ _ _ [TEvent.discard] hchunks (trivial : True)
        · intro hmod
          rw [hmodeq, hm0] at hmod
          omega
      · have hm1 : 0 < stL.modCnt := by
          rw [hstL3]; simpa using Nat.pos_of_ne_zero hcp
        have h0 : ¬(1 < stL.cnt ∧ 0 < stL.modCnt) := by
          rw [hstL3]
          rintro ⟨h, _⟩
          simp at h
        have htr : (toggleCore kind env action [p]).trace = stL.trace := by
          rw [hcore, if_neg h0, if_neg (by omega)]
        constructor
        · rw [htr, hstL3]
          have := immAct_flat (perItemComment action (localNameOf (pyStrip p)))
            (env.resolve (pyStrip p))
            (refChunk env action (localNameOf (pyStrip p)) 1) [] hchunks
            (trivial : True)
          simpa using this
        · intro _
          rw [htr, hstL3]
          obtain ⟨r, hr, hcr⟩ := List.countP_pos_iff.mp (Nat.pos_of_ne_zero hcp)
          have hch : ¬ action = curInt env r := by
            simpa [changed] using hcr
          refine List.mem_append.mpr (Or.inr ?_)
          exact List.mem_flatMap.mpr ⟨r, hr, by simp [refChunk, hch]⟩
  · -- multi-path branch with at least one modification
    intro hlen hmod
    have hmodL : 0 < stL.modCnt := by rw [hmodeq] at hmod; exact hmod
    have hcnt : stL.cnt = paths.length := hinv.2.1 hmodL
    have hif : 1 < stL.cnt ∧ 0 < stL.modCnt := ⟨by rw [hcnt]; exact hlen, hmodL⟩
    have htr : (toggleCore kind env action paths).trace
        = stL.trace ++ [TEvent.activate (aggComment kind action stL.modCnt)] := by
      rw [hcore, if_pos hif]
    refine ⟨stL.trace, ?_, ?_⟩
    · rw [htr, hmodeq]
    · intro c hc
      have := (hinv.2.2 c hc).1
      omega
  · -- zero-modification branch
    intro hmod0
    have hmodL : stL.modCnt = 0 := by rw [hmodeq] at hmod0; exact hmod0
    have h0 : ¬(1 < stL.cnt ∧ 0 < stL.modCnt) := by rintro ⟨_, h⟩; omega
    have htr : (toggleCore kind env action paths).trace
        = stL.trace ++ [TEvent.discard] := by
      rw [hcore, if_neg h0, if_pos hmodL]
    constructor
    · intro c hc
      rw [htr] at hc
      rcases List.mem_append.mp hc with hc2 | hc2
      · have := (hinv.2.2 c hc2).2
        omega
      · simp at hc2
    · exact ⟨stL.trace, htr⟩

/-- Witness for C2: the single path resolves to one currently disabled
ref; enabling it activates immediately with the per-item comment. -/
theorem c2_commit_policy_witness :
    ((toggleCore ToggleKind.enablement envToggle 1 ["Prj/F/Px"]).trace
        = [TEvent.modify "refPx",
           TEvent.activate (perItemComment 1 (localNameOf (pyStrip "Prj/F/Px")))] ∧
      0 < (toggleCore ToggleKind.enablement envToggle 1 ["Prj/F/Px"]).modCnt) ∧
    TEvent.activate (perItemComment 1 (localNameOf (pyStrip "Prj/F/Px")))
      ∈ (toggleCore ToggleKind.enablement envToggle 1 ["Prj/F/Px"]).trace :=
  ⟨⟨by decide, by decide⟩,
    ((c2_commit_policy ToggleKind.enablement envToggle 1 ["Prj/F/Px"]).1
      "Prj/F/Px" rfl).2 (by decide)⟩

/-! ### Claim C8 — counterexample -/

/-- C8 counterexample: in a batch of two projects, an exception while
discovering the dependency set of the first project makes `undeploy_osb_prj`
return at once (lines 97-100): the second project is never attempted and
gets no outcome row, so a discovery failure for one project does prevent
attempting the next. -/
theorem c8_counterexample :
    (undeploy_osb_prj envAbort ["Prj1", "Prj2"]).attempted = ["Prj1"] ∧
    (undeploy_osb_prj envAbort ["Prj1", "Prj2"]).aborted = true ∧
    (undeploy_osb_prj envAbort ["Prj1", "Prj2"]).report = [] := by
  refine ⟨?_, ?_, ?_⟩ <;> decide

theorem processOne_no_abort (env : UndeployEnv) (n : String)
    (h : (env.details (pyStrip n)).isOk = true) :
    (processOne env n).aborted = false ∧ (processOne env n).attempted = [pyStrip n] := by
  cases hv : env.details (pyStrip n) with
  | error e => rw [hv] at h; simp [Except.isOk, Except.toBool] at h
  | ok v =>
    refine ⟨?_, ?_⟩ <;>
    · simp only [processOne, hv]
      repeat' split
      all_goals rfl

theorem undeployGo_all_ok (env : UndeployEnv) :
    ∀ (names : List String) (st : UResult),
      st.aborted = false →
      (∀ p ∈ names, (env.details (pyStrip p)).isOk = true) →
      (undeployGo env st names).attempted
          = st.attempted ++ (names.filter (fun n => n != "")).map pyStrip ∧
        (undeployGo env st names).aborted = false := by
  intro names
  induction names with
  | nil => intro st hab h; simpa [undeployGo] using hab
  | cons n rest ih =>
    intro st hab h
    by_cases hn : n = ""
    · subst hn
      have h2 := ih st hab fun p hp => h p (List.mem_cons_of_mem _ hp)
      simpa [undeployGo, List.filter_cons] using h2
    · have hok := processOne_no_abort env n (h n (List.mem_cons_self n rest))
      have hm : (mergeU st (processOne env n)).aborted = false := by
        simp [mergeU, hok.1]
      have h2 := ih (mergeU st (processOne env n))
        hm fun p hp => h p (List.mem_cons_of_mem _ hp)
      have hfil : List.filter (fun n => n != "") (n :: rest)
          = n :: List.filter (fun n => n != "") rest := by
        simp [List.filter_cons, hn]
      rw [hfil] at *
      constructor
      · simp only [undeployGo, if_neg hn, hok.1, if_false, Bool.false_eq_true]
        rw [h2.1]
        simp [mergeU, hok.2, List.append_assoc]
      · simp only [undeployGo, if_neg hn, hok.1, if_false, Bool.false_eq_true]
        exact h2.2

/-- C8 amended: deletion failures do not stop the batch — when
`get_prj_details` returns normally for every name (no exception escapes
discovery), every nonempty name in the batch is attempted, whatever the
confirmation and deletion outcomes; but a discovery failure makes the
orchestrator return immediately (see the counterexample), so the remaining
projects are not attempted. -/
theorem c8_amended_batch (env : UndeployEnv) (names : List String)
    (h : ∀ p ∈ names, (env.details (pyStrip p)).isOk = true) :
    (undeploy_osb_prj env names).attempted
        = (names.filter (fun n => n != "")).map pyStrip ∧
      (undeploy_osb_prj env names).aborted = false := by
  have h2 := undeployGo_all_ok env names ⟨[], [], [], [], [], false⟩ rfl h
  simpa [undeploy_osb_prj] using h2

/-- Witness for C8 amended: deletion of the first project fails
(`deleteOk "Prj1" = false`), yet both projects are attempted. -/
theorem c8_amended_batch_witness :
    (∀ p ∈ ["Prj1", "Prj2"], (envDelFail.details (pyStrip p)).isOk = true) ∧
    (undeploy_osb_prj envDelFail ["Prj1", "Prj2"]).attempted
      = (["Prj1", "Prj2"].filter (fun n => n != "")).map pyStrip ∧
    envDelFail.deleteOk "Prj1" = false :=
  ⟨by decide, (c8_amended_batch envDelFail ["Prj1", "Prj2"] (by decide)).1, by decide⟩

/-! ### Claim C9 — counterexample -/

/-- C9 counterexample: a `tran:URI` element present with empty content is
serialised by minidom in self-closed form, which the tag-stripping
`replace` calls of line 281 do not match, so the extracted URI is the
string `"<tran:URI/>"` — not the empty string the claim requires. -/
theorem c9_counterexample :
    extractBizUri (RawMarkup.wellFormed [""]) = some "<tran:URI/>" ∧
    ("<tran:URI/>" : String) ≠ "" := by
  refine ⟨?_, ?_⟩ <;> decide

theorem buildRows_malformed_truncates :
    ∀ (good : List Endpoint), (∀ ep ∈ good, (rowOf ep).isSome = true) →
      ∀ (bn bw : String) (be : Bool) (rest : List Endpoint),
        buildRows (good ++ Endpoint.business bn be RawMarkup.malformed bw :: rest)
          = (good.filterMap rowOf, true) := by
  intro good
  induction good with
  | nil => intro _ bn bw be rest; simp [buildRows, rowOf, extractBizUri]
  | cons ep eps ih =>
    intro h bn bw be rest
    obtain ⟨r, hr⟩ := Option.isSome_iff_exists.mp (h ep (List.mem_cons_self ep eps))
    have h2 := ih (fun e he => h e (List.mem_cons_of_mem _ he)) bn bw be rest
    simp [buildRows, hr, h2, List.filterMap_cons]

/-- C9 corrected: the business URI is extracted by serialising the first
`tran:URI` element back to markup and textually stripping the open and
close tags.  An element present with empty content serialises in
self-closed form, so the extracted value is the string `"<tran:URI/>"`,
not the empty string.  Malformed markup does not fail the resolution for
the project: the exception is caught by the handler of lines 291-293, which
logs it and returns the rows accumulated before the bad endpoint — a
truncated dependency report. -/
theorem c9_amended_markup (cs : List String) (good : List Endpoint)
    (bn bw pn : String) (be : Bool) (rest : List Endpoint)
    (hgood : ∀ ep ∈ good, (rowOf ep).isSome = true) :
    extractBizUri (RawMarkup.wellFormed ("" :: cs)) = some "<tran:URI/>" ∧
    buildRows (good ++ Endpoint.business bn be RawMarkup.malformed bw :: rest)
      = (good.filterMap rowOf, true) ∧
    get_prj_details [⟨pn, good ++ Endpoint.business bn be RawMarkup.malformed bw :: rest⟩] pn
      = PyVal.rows (good.filterMap rowOf) := by
  refine ⟨rfl, buildRows_malformed_truncates good hgood bn bw be rest, ?_⟩
  have hfind : findProject
      [⟨pn, good ++ Endpoint.business bn be RawMarkup.malformed bw :: rest⟩] pn
      = some ⟨pn, good ++ Endpoint.business bn be RawMarkup.malformed bw :: rest⟩ := by
    simp [findProject, List.find?]
  simp [get_prj_details, hfind, buildRows_malformed_truncates good hgood bn bw be rest]

/-- Witness for C9 amended: a project whose first endpoint is a proxy and
whose second endpoint carries malformed markup resolves to the one proxy
row. -/
theorem c9_amended_markup_witness :
    (∀ ep ∈ [Endpoint.proxy "P/X" true "http://u" "wmZ"], (rowOf ep).isSome = true) ∧
    get_prj_details
        [⟨"P", [Endpoint.proxy "P/X" true "http://u" "wmZ",
                Endpoint.business "P/Y" true RawMarkup.malformed "wmZ"]⟩] "P"
      = PyVal.rows ([Endpoint.proxy "P/X" true "http://u" "wmZ"].filterMap rowOf) :=
  ⟨by decide,
    (c9_amended_markup [] [Endpoint.proxy "P/X" true "http://u" "wmZ"]
      "P/Y" "wmZ" "P" true [] (by decide)).2.2⟩

/-! ### Claim C10 -/

/-- C10: for every queue name that strips to the empty string,
`delete_queue` returns before opening the edit transaction (lines
768-775): the report is empty and the action trace is empty — no
`startEdit`, no lookup, no destroy, no rows. -/
theorem c10_blank_queue_name (reg : List JmsModule) (ans : Nat → String)
    (queue_name : String) (h : pyStrip queue_name = "") :
    delete_queue reg ans queue_name = ([], []) := by
  simp [delete_queue, h]

/-- Witness for C10 at the whitespace-only name. -/
theorem c10_blank_queue_name_witness :
    pyStrip "  " = "" ∧ delete_queue [] (fun _ => "Y") "  " = ([], []) :=
  ⟨by decide, c10_blank_queue_name [] (fun _ => "Y") "  " (by decide)⟩

end ManageOSB
